import Mathlib

/-!
Shallow embedding of the data-indexing, batching, loss and serving core of the
browser two-tower movie-recommendation demo, together with proofs of the
testable properties stated in its specification.

Source mapping (JavaScript -> Lean):
* buildIndexing / toDense / toExternal : src/week4/two-tower.js, buildIndexing
  (lines 194-217) and src/unnamed/part_000, loadData (lines 153-166).
  External ids are deduplicated and sorted ascending; the dense index of an id
  is its position in that sorted list.
* firstSeenDistinct / part002ToDense : src/unnamed/part_002, loadData
  (lines 55-59), which indexes ids in first-seen order instead of sorting.
* getUserTopRated : src/week4/two-tower.js, getUserTopRatedTitles
  (lines 220-233): sort a user's rated items by rating descending then
  timestamp descending and truncate (title resolution is display-only and
  omitted).
* getRecommendations : src/unnamed/part_004, TwoTowerModel.getRecommendations
  (lines 224-252); recommendForUser : src/unnamed/part_000 (lines 539-569).
* chunksAux / chunks / batchGenerator : src/unnamed/part_000, batchGenerator
  (lines 207-230); the Fisher-Yates shuffle is modelled by an arbitrary
  permutation parameter.
* mean / sigmoid / dot / gather / inBatchSoftmaxLoss / bprLoss /
  trainStepInBatch : src/unnamed/part_003, TwoTowerModel.trainStepInBatch
  (lines 29-57).  Floating-point numbers are modelled by an arbitrary field,
  instantiated at the real numbers in the theorems; exp and log are passed as
  function parameters because they are transcendental.
* deepTrainStep / deepScoreAllItems : src/unnamed/part_003, DeepRecModel
  (lines 175-229 and 235-282).
* eligibleBatches / runEpochLosses : src/week4/two-tower.js, btnTrain.onclick
  training loop (lines 341-372); a loss value is an Option: none models a
  non-finite (NaN/infinite) float.
-/

namespace MovieRec

/-! ### Identifier indexing (week4 buildIndexing, part_000 loadData) -/

/-- Dense index space built from a list of external integer ids, as in
buildIndexing: collect the distinct ids and sort them ascending
(Array.from(new Set(ids)).sort((a,b) => a-b)).  The JS Set keeps first
occurrences; since the list is sorted afterwards, deduplication keeping any
occurrence yields the same list. -/
def buildIndexing (ids : List ℤ) : List ℤ :=
  List.insertionSort (· ≤ ·) ids.dedup

/-- Forward map of the index space: external id to dense index
(userIndex.get / itemIndex.get in the source). -/
def toDense (ids : List ℤ) (e : ℤ) : ℕ :=
  List.indexOf e (buildIndexing ids)

/-- Reverse map of the index space: dense index to external id
(indexUser[i] / indexItem[i] in the source). -/
def toExternal (ids : List ℤ) (i : ℕ) : ℤ :=
  (buildIndexing ids).getD i 0

/-- Distinct ids in first-seen order, as produced by the JS expression
[...new Set(xs)] in part_002 loadData (no sort). -/
def firstSeenDistinct (ids : List ℤ) : List ℤ :=
  ids.foldl (fun acc x => if x ∈ acc then acc else acc ++ [x]) []

/-- Forward map of the part_002 variant: position in the first-seen
distinct list (users.forEach((u,i) => userIdx.set(u,i))). -/
def part002ToDense (ids : List ℤ) (e : ℤ) : ℕ :=
  List.indexOf e (firstSeenDistinct ids)

/-! ### Historical top-K (week4 getUserTopRatedTitles) -/

/-- One stored interaction of a user profile: dense item index, rating and
timestamp ({itemIdx, rating, ts} in usersMap). -/
structure RatingEntry where
  itemIdx : ℕ
  rating : ℤ
  ts : ℤ
deriving DecidableEq

/-- Ordering used by getUserTopRatedTitles: the comparator
(a,b) => (b.rating - a.rating) || (b.ts - a.ts) puts a before b exactly when
b.rating < a.rating, or the ratings tie and b.ts <= a.ts. -/
def ratedOrd (a b : RatingEntry) : Prop :=
  b.rating < a.rating ∨ (b.rating = a.rating ∧ b.ts ≤ a.ts)

instance : DecidableRel ratedOrd := fun a b => by
  unfold ratedOrd
  infer_instance

instance : IsTotal RatingEntry ratedOrd where
  total a b := by
    unfold ratedOrd
    omega

instance : IsTrans RatingEntry ratedOrd where
  trans a b c hab hbc := by
    unfold ratedOrd at *
    omega

/-- Historical top-K query (getUserTopRatedTitles): look the user up in the
profile table (usersMap.get(uIdx) || []), sort a copy by rating descending
then timestamp descending, and truncate to the first limit entries. -/
def getUserTopRated (usersMap : List (ℤ × List RatingEntry)) (uIdx : ℤ)
    (limit : ℕ) : List RatingEntry :=
  (List.insertionSort ratedOrd ((usersMap.lookup uIdx).getD [])).take limit

/-! ### Scoring and recommendation serving -/

/-- Dot product of two embedding vectors (tf.sum(tf.mul(u, v)) /
one row of a matMul against a transposed matrix). -/
def dot {K : Type} [Field K] (u v : List K) : K :=
  (List.zipWith (fun a b => a * b) u v).sum

/-- Ordering used to rank candidate (itemIndex, score) pairs: the comparator
(a,b) => b.score - a.score puts a before b exactly when b.score <= a.score. -/
def scoreOrd (p q : ℕ × ℚ) : Prop :=
  q.2 ≤ p.2

instance : DecidableRel scoreOrd := fun p q => by
  unfold scoreOrd
  infer_instance

instance : IsTotal (ℕ × ℚ) scoreOrd where
  total p q := le_total q.2 p.2

instance : IsTrans (ℕ × ℚ) scoreOrd where
  trans _p _q _r hpq hqr := le_trans hqr hpq

/-- Recommendation serving of part_004 TwoTowerModel.getRecommendations:
score every catalog item by dot product with the user embedding, keep the
items whose index is not excluded, sort by score descending and take topK. -/
def getRecommendations (userEmb : List ℚ) (itemEmbed : List (List ℚ))
    (numItems : ℕ) (excludeItemIndices : List ℕ) (topK : ℕ) :
    List (ℕ × ℚ) :=
  let scoresArray := (List.range numItems).map
    (fun i => dot userEmb (itemEmbed.getD i []))
  let recommendations :=
    ((List.range numItems).filter (fun i => decide (i ∉ excludeItemIndices))).map
      (fun i => (i, scoresArray.getD i 0))
  (List.insertionSort scoreOrd recommendations).take topK

/-! ### Batch generation (part_000 batchGenerator) -/

/-- Fuelled worker for slicing a list into consecutive chunks of size b,
mirroring the loop for (start = 0; start < len; start += batchSize)
slice(start, start + batchSize); the fuel is instantiated with the list
length, which suffices whenever b >= 1. -/
def chunksAux {α : Type} (b : ℕ) : ℕ → List α → List (List α)
  | 0, _ => []
  | _ + 1, [] => []
  | fuel + 1, x :: xs => (x :: xs).take b :: chunksAux b fuel ((x :: xs).drop b)

/-- All consecutive batchSize-slices of a list, in order. -/
def chunks {α : Type} (l : List α) (b : ℕ) : List (List α) :=
  chunksAux b l.length l

/-- Recommendation serving of part_000 recommendForUser: the catalog is
scored in chunks of 1024 items; within each chunk, items in the user's rated
set are skipped while accumulating (index, score) results; the accumulated
results are then sorted by score descending and truncated to k. -/
def recommendForUser (userEmb : List ℚ) (itemEmbed : List (List ℚ))
    (numItems : ℕ) (userRatedSet : List ℕ) (k : ℕ) : List (ℕ × ℚ) :=
  let results :=
    ((chunks (List.range numItems) 1024).map
      (fun c => (c.filter (fun i => decide (i ∉ userRatedSet))).map
        (fun i => (i, dot userEmb (itemEmbed.getD i []))))).flatten
  (List.insertionSort scoreOrd results).take k

/-- Batch generator of part_000 (lines 207-230): shuffle the index list
0..len-1 (the shuffled permutation idxs is a parameter here), slice it into
batches, and for each slice read off the user and positive-item columns of
the interaction table.  Negative sampling is independent of the claim about
positive pairs and is modelled with the losses instead. -/
def batchGenerator (inter : List (ℕ × ℕ)) (batchSize : ℕ)
    (idxs : List ℕ) : List (List ℕ × List ℕ) :=
  (chunks idxs batchSize).map
    (fun s => (s.map (fun j => (inter.getD j (0, 0)).1),
               s.map (fun j => (inter.getD j (0, 0)).2)))

/-- All (user, positiveItem) pairs contained in the batches of one epoch,
obtained by zipping the user and positive columns of every yielded batch. -/
def epochPairs (inter : List (ℕ × ℕ)) (batchSize : ℕ)
    (idxs : List ℕ) : List (ℕ × ℕ) :=
  ((batchGenerator inter batchSize idxs).map
    (fun batch => batch.1.zip batch.2)).flatten

/-! ### Loss formulations (part_003 TwoTowerModel.trainStepInBatch) -/

/-- Arithmetic mean of a list of scalars (tensor.mean()); the empty list
yields 0 / 0 = 0. -/
def mean {K : Type} [Field K] (l : List K) : K :=
  l.sum / (l.length : K)

/-- Logistic sigmoid 1 / (1 + exp(-x)) (tf.sigmoid); the exponential is a
function parameter since it is transcendental. -/
def sigmoid {K : Type} [Field K] (kexp : K → K) (x : K) : K :=
  1 / (1 + kexp (-x))

/-- Embedding-table lookup for a batch of indices
(tf.gather(table, ids)). -/
def gather {K : Type} [Field K] (table : List (List K)) (ids : List ℕ) :
    List (List K) :=
  ids.map (fun i => table.getD i [])

/-- In-batch softmax loss: logits = U Pᵀ (a B x B matrix), one-hot targets on
the diagonal, softmax cross-entropy per row
(log-sum-exp of the row minus its diagonal entry), averaged over rows. -/
def inBatchSoftmaxLoss {K : Type} [Field K] (kexp klog : K → K)
    (U P : List (List K)) : K :=
  let logits := U.map (fun u => P.map (fun p => dot u p))
  mean ((List.range U.length).map
    (fun i => klog (((logits.getD i []).map kexp).sum)
      - (logits.getD i []).getD i 0))

/-- Pairwise (BPR) loss: per-example scores sPos = U_i . P_i and
sNeg = U_i . N_i, per-example loss -log(sigmoid(sPos - sNeg) + eps), averaged
over the batch. -/
def bprLoss {K : Type} [Field K] (kexp klog : K → K) (eps : K)
    (U P N : List (List K)) : K :=
  let sPos := List.zipWith dot U P
  let sNeg := List.zipWith dot U N
  let diff := List.zipWith (fun a b => a - b) sPos sNeg
  mean (diff.map (fun d => -(klog (sigmoid kexp d + eps))))

/-- One training-step loss of part_003 TwoTowerModel.trainStepInBatch: gather
the user and positive-item embedding rows; with useBPR the negatives are the
positive items rotated by one position ((i+1) % B) and the BPR loss uses the
stability constant 1e-9; otherwise the in-batch softmax loss is used. -/
def trainStepInBatch {K : Type} [Field K] (kexp klog : K → K)
    (userEmbed itemEmbed : List (List K)) (uIdxArr posIdxArr : List ℕ)
    (useBPR : Bool) : K :=
  let U := gather userEmbed uIdxArr
  let P := gather itemEmbed posIdxArr
  if useBPR then
    let B := uIdxArr.length
    let negIdxArr := (List.range B).map (fun i => posIdxArr.getD ((i + 1) % B) 0)
    let N := gather itemEmbed negIdxArr
    bprLoss kexp klog (1 / 10 ^ 9) U P N
  else
    inBatchSoftmaxLoss kexp klog U P

/-- Spec-side formulation of the pairwise batch loss, written from the words
of spec section 4.4: sPos_i = U_i . P_i, sNeg_i = U_i . N_i where N_i is the
positive item of pair (i+1) mod B, per-example loss
-log(sigmoid(sPos_i - sNeg_i) + eps), batch loss the mean over examples.
It exists only to be compared with the source-derived trainStepInBatch. -/
def specBprLoss {K : Type} [Field K] (kexp klog : K → K) (eps : K)
    (Uv Pv : ℕ → List K) (B : ℕ) : K :=
  mean ((List.range B).map
    (fun i => -(klog (sigmoid kexp
      (dot (Uv i) (Pv i) - dot (Uv i) (Pv ((i + 1) % B))) + eps))))

/-! ### Deep (MLP) model (part_003 DeepRecModel) -/

/-- Training-step loss of part_003 DeepRecModel.trainStep: the MLP input rows
(user embedding ++ positive-item embedding ++ genre and user features) are
built and pushed through the MLP exactly as in the source, but the resulting
mlpOut vector is not consumed by either loss branch, which use only the
bilinear embeddings - mirroring the source, where mlpOut is computed and then
unused. -/
def deepTrainStep {K : Type} [Field K] (kexp klog : K → K)
    (userEmbed itemEmbed : List (List K)) (mlp : List K → K)
    (genreFor userFeatFor : ℕ → List K) (uIdxArr posIdxArr : List ℕ)
    (useBPR : Bool) : K :=
  let B := uIdxArr.length
  let Uembed := gather userEmbed uIdxArr
  let Pembed := gather itemEmbed posIdxArr
  let input := (List.range B).map
    (fun i => Uembed.getD i [] ++ Pembed.getD i []
      ++ genreFor (posIdxArr.getD i 0) ++ userFeatFor (uIdxArr.getD i 0))
  let _mlpOut := input.map mlp
  if useBPR then
    let negIdxArr := (List.range B).map (fun i => posIdxArr.getD ((i + 1) % B) 0)
    let N := gather itemEmbed negIdxArr
    bprLoss kexp klog (1 / 10 ^ 9) Uembed Pembed N
  else
    inBatchSoftmaxLoss kexp klog Uembed Pembed

/-- Serving-path scores of part_003 DeepRecModel.scoreAllItems: dot-product
scores for every catalog item and, when the feature path is enabled, the MLP
scalar output on (user embedding ++ item embedding ++ features) added to the
dot score (combined = dotScores.add(mlpScores)). -/
def deepScoreAllItems {K : Type} [Field K] (userEmb : List K)
    (itemEmbed : List (List K)) (numItems : ℕ) (useFeatures : Bool)
    (mlp : List K → K) (featFor : ℕ → List K) : List K :=
  let dotScores := (List.range numItems).map
    (fun i => dot userEmb (itemEmbed.getD i []))
  if useFeatures then
    (List.range numItems).map
      (fun i => dotScores.getD i 0
        + mlp (userEmb ++ itemEmbed.getD i [] ++ featFor i))
  else
    dotScores

/-! ### Training loop per-epoch batch handling (week4 btnTrain.onclick) -/

/-- Batches that the week4 training loop actually trains on: consecutive
batchSize-slices of the shuffled pair list, skipping slices with fewer than
2 pairs (if (batch.length < 2) continue). -/
def eligibleBatches (pairs : List (ℕ × ℕ)) (batchSize : ℕ) :
    List (List (ℕ × ℕ)) :=
  (chunks pairs batchSize).filter (fun b => decide (2 ≤ b.length))

/-- Loss history recorded by one epoch of the week4 training loop: for every
eligible batch, in order, the step loss is computed and appended to
lossHistory; a loss value is Option-valued, none standing for a non-finite
(NaN or infinite) float.  The loop inspects nothing about the value. -/
def runEpochLosses (pairs : List (ℕ × ℕ)) (batchSize : ℕ)
    (stepLoss : List (ℕ × ℕ) → Option ℚ) : List (Option ℚ) :=
  (eligibleBatches pairs batchSize).map stepLoss

/-! ### Helper lemmas -/

/-- The dense id list is sorted ascending. -/
lemma buildIndexing_sorted (ids : List ℤ) :
    List.Sorted (· ≤ ·) (buildIndexing ids) :=
  List.sorted_insertionSort _ _

/-- The dense id list has no duplicates. -/
lemma buildIndexing_nodup (ids : List ℤ) : (buildIndexing ids).Nodup :=
  (List.perm_insertionSort _ _).symm.nodup (List.nodup_dedup ids)

/-- Membership in the dense id list is membership in the input. -/
lemma mem_buildIndexing {ids : List ℤ} {e : ℤ} :
    e ∈ buildIndexing ids ↔ e ∈ ids :=
  (List.mem_insertionSort _).trans (List.mem_dedup)

/-- Reading a list back off the index range recovers the list. -/
lemma map_getD_range {α : Type} (l : List α) (d : α) :
    (List.range l.length).map (fun i => l.getD i d) = l := by
  apply List.ext_getElem
  · simp
  · intro n h1 h2
    simp [List.getElem?_eq_getElem h2]

/-- Flattening the chunks of a list recovers the list, provided the chunk
size is at least 1 and the fuel is at least the list length. -/
lemma chunksAux_flatten {α : Type} {b : ℕ} (hb : 1 ≤ b) :
    ∀ (fuel : ℕ) (l : List α), l.length ≤ fuel →
      (chunksAux b fuel l).flatten = l := by
  intro fuel
  induction fuel with
  | zero =>
    intro l hl
    have hnil : l = [] := List.eq_nil_of_length_eq_zero (Nat.le_zero.mp hl)
    subst hnil
    simp [chunksAux]
  | succ n ih =>
    intro l hl
    cases l with
    | nil => simp [chunksAux]
    | cons x xs =>
      have hdrop : ((x :: xs).drop b).length ≤ n := by
        rw [List.length_drop]
        simp only [List.length_cons] at hl ⊢
        omega
      simp only [chunksAux, List.flatten_cons]
      rw [ih _ hdrop]
      exact List.take_append_drop b (x :: xs)

/-- Flattening the chunks of a list recovers the list for chunk size at
least 1. -/
lemma chunks_flatten {α : Type} (l : List α) {b : ℕ} (hb : 1 ≤ b) :
    (chunks l b).flatten = l :=
  chunksAux_flatten hb l.length l le_rfl

/-- Filtering chunkwise and mapping, then flattening, is filtering and
mapping the flattened list. -/
lemma flatten_chunk_filter_map {α β : Type} (q : α → Bool) (f : α → β)
    (L : List (List α)) :
    (L.map (fun c => (c.filter q).map f)).flatten
      = (L.flatten.filter q).map f := by
  induction L with
  | nil => simp
  | cons c L ih => simp [List.filter_append, ih]

/-- A member of the truncated sorted candidate list is a candidate. -/
lemma take_sort_mem {p : ℕ × ℚ} {l : List (ℕ × ℚ)} {k : ℕ}
    (hp : p ∈ (List.insertionSort scoreOrd l).take k) : p ∈ l :=
  (List.mem_insertionSort _).mp ((List.take_sublist _ _).subset hp)

/-- Truncating the sorted candidate list to k yields min k (number of
candidates) results. -/
lemma take_sort_length (l : List (ℕ × ℚ)) (k : ℕ) :
    ((List.insertionSort scoreOrd l).take k).length = min k l.length := by
  rw [List.length_take, List.length_insertionSort]

/-! ### C2: index-space bijection -/

/-- C2: building the index space over any external id list yields exactly
one dense index per distinct id (the dense indices being the positions of a
list of length |distinct ids|, hence the contiguous range 0..N-1), and the
forward and reverse maps are mutually inverse: toExternal (toDense e) = e for
every id e of the input, and toDense (toExternal i) = i for every dense index
i < N. -/
theorem buildIndexing_bijection (ids : List ℤ) :
    (buildIndexing ids).length = ids.toFinset.card
    ∧ (∀ e ∈ ids, toExternal ids (toDense ids e) = e)
    ∧ (∀ i < (buildIndexing ids).length, toDense ids (toExternal ids i) = i) := by
  refine ⟨?_, ?_, ?_⟩
  · rw [List.card_toFinset]
    exact List.length_insertionSort _ _
  · intro e he
    have he' : e ∈ buildIndexing ids := mem_buildIndexing.mpr he
    have h : List.indexOf e (buildIndexing ids) < (buildIndexing ids).length :=
      List.indexOf_lt_length.mpr he'
    unfold toExternal toDense
    rw [List.getD_eq_getElem _ _ h]
    exact List.indexOf_get h
  · intro i hi
    unfold toDense toExternal
    rw [List.getD_eq_getElem _ _ hi]
    exact List.get_indexOf (buildIndexing_nodup ids) ⟨i, hi⟩

/-- C2 witness: the bijection theorem applied to the concrete input
[3, 1, 3], whose index space is [1, 3]. -/
theorem buildIndexing_bijection_witness :
    toExternal [3, 1, 3] (toDense [3, 1, 3] 3) = 3
    ∧ toDense [3, 1, 3] (toExternal [3, 1, 3] 0) = 0 :=
  ⟨(buildIndexing_bijection [3, 1, 3]).2.1 3 (by decide),
   (buildIndexing_bijection [3, 1, 3]).2.2 0 (by decide)⟩

/-! ### C3: ordering of dense index assignment -/

/-- C3 counterexample: the claim is false for the part_002 variant of the
index builder, which assigns dense indices in first-seen order: on the input
[5, 3] the id 3 is smaller than 5 yet receives the larger dense index. -/
theorem part002ToDense_not_ascending :
    ¬ (∀ (ids : List ℤ), ∀ a ∈ ids, ∀ b ∈ ids,
        a < b → part002ToDense ids a < part002ToDense ids b) := by
  intro h
  have h53 := h [5, 3] 3 (by decide) 5 (by decide) (by decide)
  revert h53
  decide

/-- C3 (amended): for the week4 buildIndexing (and the part_000 loadData
indexer), dense indices are assigned in ascending order of external id:
smaller ids receive strictly smaller dense indices. -/
theorem buildIndexing_ascending (ids : List ℤ) :
    ∀ a ∈ ids, ∀ b ∈ ids, a < b → toDense ids a < toDense ids b := by
  intro a ha b hb hab
  have ha' : a ∈ buildIndexing ids := mem_buildIndexing.mpr ha
  have hb' : b ∈ buildIndexing ids := mem_buildIndexing.mpr hb
  have hia : List.indexOf a (buildIndexing ids) < (buildIndexing ids).length :=
    List.indexOf_lt_length.mpr ha'
  have hib : List.indexOf b (buildIndexing ids) < (buildIndexing ids).length :=
    List.indexOf_lt_length.mpr hb'
  by_contra hcon
  push_neg at hcon
  unfold toDense at hcon
  rcases Nat.lt_or_ge (List.indexOf b (buildIndexing ids))
      (List.indexOf a (buildIndexing ids)) with hlt | hge
  · have hle := (List.pairwise_iff_get.mp (buildIndexing_sorted ids))
      ⟨_, hib⟩ ⟨_, hia⟩ (Fin.mk_lt_mk.mpr hlt)
    rw [List.indexOf_get hia, List.indexOf_get hib] at hle
    exact absurd hab (not_lt.mpr hle)
  · have heq : List.indexOf a (buildIndexing ids)
        = List.indexOf b (buildIndexing ids) := le_antisymm (by omega) hcon
    have : a = b := by
      have h1 := List.indexOf_get hia
      have h2 := List.indexOf_get hib
      rw [← h1, ← h2]
      congr 1
      exact Fin.ext heq
    exact absurd hab (by omega)

/-- C3 witness: the amended ascending-order theorem at the concrete input
[3, 1, 3]: the id 1 receives a smaller dense index than the id 3. -/
theorem buildIndexing_ascending_witness :
    toDense [3, 1, 3] 1 < toDense [3, 1, 3] 3 :=
  buildIndexing_ascending [3, 1, 3] 1 (by decide) 3 (by decide) (by decide)

/-! ### C5 and C10: historical top-K query -/

/-- C5: the historical top-K query returns the user's rated items sorted by
rating descending with ties broken by timestamp descending, truncated to the
first K (its result is so sorted, has length min K (number of rated items),
and draws only from the user's own rated items); on the concrete ratings
(item 5, rating 3, ts 100), (item 7, rating 5, ts 50), (item 9, rating 5,
ts 90) the top-3 item order is 9, 7, 5. -/
theorem getUserTopRated_ranking :
    (∀ (m : List (ℤ × List RatingEntry)) (u : ℤ) (k : ℕ),
      List.Sorted ratedOrd (getUserTopRated m u k)
      ∧ (getUserTopRated m u k).length = min k ((m.lookup u).getD []).length
      ∧ ∀ x ∈ getUserTopRated m u k, x ∈ (m.lookup u).getD [])
    ∧ (getUserTopRated [(0, [⟨5, 3, 100⟩, ⟨7, 5, 50⟩, ⟨9, 5, 90⟩])] 0 3).map
        RatingEntry.itemIdx = [9, 7, 5] := by
  constructor
  · intro m u k
    refine ⟨?_, ?_, ?_⟩
    · exact List.Pairwise.sublist (List.take_sublist _ _)
        (List.sorted_insertionSort _ _)
    · rw [getUserTopRated, List.length_take, List.length_insertionSort]
    · intro x hx
      have hx' := (List.take_sublist _ _).subset hx
      exact (List.mem_insertionSort _).mp hx'
  · decide

/-- C5 witness: the ranking theorem applied to the concrete example profile
from the claim. -/
theorem getUserTopRated_ranking_witness :
    List.Sorted ratedOrd
      (getUserTopRated [(0, [⟨5, 3, 100⟩, ⟨7, 5, 50⟩, ⟨9, 5, 90⟩])] 0 3)
    ∧ (⟨9, 5, 90⟩ : RatingEntry)
        ∈ (([(0, [⟨5, 3, 100⟩, ⟨7, 5, 50⟩, ⟨9, 5, 90⟩])] :
            List (ℤ × List RatingEntry)).lookup 0).getD [] :=
  ⟨(getUserTopRated_ranking.1 [(0, [⟨5, 3, 100⟩, ⟨7, 5, 50⟩, ⟨9, 5, 90⟩])] 0 3).1,
   (getUserTopRated_ranking.1 [(0, [⟨5, 3, 100⟩, ⟨7, 5, 50⟩, ⟨9, 5, 90⟩])] 0 3).2.2
     ⟨9, 5, 90⟩ (by decide)⟩

/-- C10: the historical top-K query is total: for a user with no recorded
interactions (any key missing from the profile table) it returns the empty
list rather than failing, and for every user the result has length at most
K. -/
theorem getUserTopRated_total (m : List (ℤ × List RatingEntry)) (u : ℤ)
    (k : ℕ) :
    (m.lookup u = none → getUserTopRated m u k = [])
    ∧ (getUserTopRated m u k).length ≤ k := by
  constructor
  · intro h
    simp [getUserTopRated, h]
  · exact List.length_take_le _ _

/-- C10 witness: the totality theorem applied to the empty profile table. -/
theorem getUserTopRated_total_witness :
    getUserTopRated [] 0 3 = [] ∧ (getUserTopRated [] 0 3).length ≤ 3 :=
  ⟨(getUserTopRated_total [] 0 3).1 rfl, (getUserTopRated_total [] 0 3).2⟩

/-! ### C1: exclusion-aware top-K serving -/

/-- C1: both recommendation operations never return an excluded item index,
and each returns exactly min k (number of non-excluded catalog items)
results, so exclusion is applied to the candidate set before the top-K
truncation: fewer than k results occur only when fewer than k unseen items
exist. -/
theorem recommend_exclusion_before_topK
    (userEmb : List ℚ) (itemEmbed : List (List ℚ)) (numItems : ℕ)
    (excl : List ℕ) (k : ℕ) :
    (∀ p ∈ getRecommendations userEmb itemEmbed numItems excl k, p.1 ∉ excl)
    ∧ (getRecommendations userEmb itemEmbed numItems excl k).length
        = min k (((List.range numItems).filter
            (fun i => decide (i ∉ excl))).length)
    ∧ (∀ p ∈ recommendForUser userEmb itemEmbed numItems excl k, p.1 ∉ excl)
    ∧ (recommendForUser userEmb itemEmbed numItems excl k).length
        = min k (((List.range numItems).filter
            (fun i => decide (i ∉ excl))).length) := by
  have hgr : getRecommendations userEmb itemEmbed numItems excl k
      = (List.insertionSort scoreOrd
          (((List.range numItems).filter (fun i => decide (i ∉ excl))).map
            (fun i => (i, ((List.range numItems).map
              (fun j => dot userEmb (itemEmbed.getD j []))).getD i 0)))).take k :=
    rfl
  have hrf : recommendForUser userEmb itemEmbed numItems excl k
      = (List.insertionSort scoreOrd
          (((List.range numItems).filter (fun i => decide (i ∉ excl))).map
            (fun i => (i, dot userEmb (itemEmbed.getD i []))))).take k := by
    unfold recommendForUser
    rw [flatten_chunk_filter_map, chunks_flatten _ (by norm_num)]
  refine ⟨?_, ?_, ?_, ?_⟩
  · intro p hp
    rw [hgr] at hp
    rcases List.mem_map.mp (take_sort_mem hp) with ⟨i, hifil, rfl⟩
    exact of_decide_eq_true (List.mem_filter.mp hifil).2
  · rw [hgr, take_sort_length, List.length_map]
  · intro p hp
    rw [hrf] at hp
    rcases List.mem_map.mp (take_sort_mem hp) with ⟨i, hifil, rfl⟩
    exact of_decide_eq_true (List.mem_filter.mp hifil).2
  · rw [hrf, take_sort_length, List.length_map]

/-- C1 witness: the exclusion theorem at a concrete catalog of two items
with item 0 excluded and k = 1. -/
theorem recommend_exclusion_before_topK_witness :
    ((1 : ℕ), (2 : ℚ)).1 ∉ ([0] : List ℕ)
    ∧ (getRecommendations [1] [[1], [2]] 2 [0] 1).length
        = min 1 (((List.range 2).filter
            (fun i => decide (i ∉ ([0] : List ℕ)))).length) :=
  ⟨(recommend_exclusion_before_topK [1] [[1], [2]] 2 [0] 1).1 (1, 2)
    (by norm_num [getRecommendations, dot, scoreOrd, List.insertionSort,
      List.orderedInsert, List.range_succ]),
   (recommend_exclusion_before_topK [1] [[1], [2]] 2 [0] 1).2.1⟩

/-! ### C4: batch completeness over one epoch -/

/-- C4: over one epoch, the multiset of (user, positiveItem) pairs contained
in all batches yielded by the batch generator equals exactly the input
training-pair multiset, for every batch size at least 1 and every shuffle
(permutation of the index range). -/
theorem epochPairs_complete (inter : List (ℕ × ℕ)) (batchSize : ℕ)
    (idxs : List ℕ) (hb : 1 ≤ batchSize)
    (hperm : idxs.Perm (List.range inter.length)) :
    (epochPairs inter batchSize idxs : Multiset (ℕ × ℕ))
      = (inter : Multiset (ℕ × ℕ)) := by
  rw [Multiset.coe_eq_coe]
  have h1 : epochPairs inter batchSize idxs
      = idxs.map (fun j => inter.getD j (0, 0)) := by
    unfold epochPairs batchGenerator
    rw [List.map_map]
    have hcomp : ((fun batch : List ℕ × List ℕ => batch.1.zip batch.2) ∘
        (fun s : List ℕ => (s.map (fun j => (inter.getD j (0, 0)).1),
          s.map (fun j => (inter.getD j (0, 0)).2))))
        = fun s : List ℕ => s.map (fun j => inter.getD j (0, 0)) := by
      funext s
      simp [List.zip_map']
    rw [hcomp, ← List.map_flatten, chunks_flatten _ hb]
  have h2 := hperm.map (fun j => inter.getD j (0, 0))
  rw [map_getD_range] at h2
  rw [h1]
  exact h2

/-- C4 witness: one epoch over three pairs with batch size 2 and the
shuffle [2, 0, 1] reproduces the pair multiset exactly. -/
theorem epochPairs_complete_witness :
    (epochPairs [(0, 1), (1, 2), (0, 2)] 2 [2, 0, 1] : Multiset (ℕ × ℕ))
      = ([(0, 1), (1, 2), (0, 2)] : Multiset (ℕ × ℕ)) :=
  epochPairs_complete [(0, 1), (1, 2), (0, 2)] 2 [2, 0, 1] (by decide)
    (by decide)

/-! ### C6: pairwise loss formula -/

/-- C6: in pairwise mode, the training-step loss of trainStepInBatch equals
the spec formula: the mean over examples of
-log(sigmoid(sPos_i - sNeg_i) + eps) where sPos_i (resp. sNeg_i) is the dot
product of the i-th user embedding with the i-th positive (resp. negative)
item embedding, the negative being the positive item of pair (i+1) mod B,
with stability constant eps = 1e-9, which does not exceed 1e-6. -/
theorem trainStepInBatch_bpr_spec (kexp klog : ℝ → ℝ)
    (userEmbed itemEmbed : List (List ℝ)) (uIdxArr posIdxArr : List ℕ)
    (hB : 2 ≤ uIdxArr.length) (hlen : posIdxArr.length = uIdxArr.length) :
    trainStepInBatch kexp klog userEmbed itemEmbed uIdxArr posIdxArr true
      = specBprLoss kexp klog (1 / 10 ^ 9)
          (fun i => userEmbed.getD (uIdxArr.getD i 0) [])
          (fun i => itemEmbed.getD (posIdxArr.getD i 0) []) uIdxArr.length
    ∧ ((1 : ℝ) / 10 ^ 9) ≤ 1 / 10 ^ 6 := by
  refine ⟨?_, by norm_num⟩
  have hrw : trainStepInBatch kexp klog userEmbed itemEmbed uIdxArr posIdxArr
      true
      = bprLoss kexp klog (1 / 10 ^ 9) (gather userEmbed uIdxArr)
          (gather itemEmbed posIdxArr)
          (gather itemEmbed ((List.range uIdxArr.length).map
            (fun i => posIdxArr.getD ((i + 1) % uIdxArr.length) 0))) := rfl
  rw [hrw]
  unfold bprLoss specBprLoss gather
  dsimp only
  congr 1
  apply List.ext_getElem
  · simp [hlen]
  · intro n h1 h2
    have hn1 : n < uIdxArr.length := by simpa using h2
    have hn2 : n < posIdxArr.length := by omega
    simp only [List.getElem_map, List.getElem_zipWith, List.getElem_range]
    rw [List.getD_eq_getElem uIdxArr 0 hn1, List.getD_eq_getElem posIdxArr 0 hn2]

/-- C6 witness: the pairwise-loss refinement theorem applied to a concrete
batch of two pairs with concrete embedding tables. -/
theorem trainStepInBatch_bpr_spec_witness :
    trainStepInBatch (fun x => x) (fun x => x) [[(1 : ℝ)], [0]]
        [[(1 : ℝ)], [1]] [0, 1] [0, 1] true
      = specBprLoss (fun x => x) (fun x => x) (1 / 10 ^ 9)
          (fun i => [[(1 : ℝ)], [0]].getD ([0, 1].getD i 0) [])
          (fun i => [[(1 : ℝ)], [1]].getD ([0, 1].getD i 0) []) 2
    ∧ ((1 : ℝ) / 10 ^ 9) ≤ 1 / 10 ^ 6 :=
  trainStepInBatch_bpr_spec (fun x => x) (fun x => x) [[1], [0]] [[1], [1]]
    [0, 1] [0, 1] (by decide) rfl

/-! ### C9: loss bounds -/

/-- The logistic sigmoid of a real is positive. -/
lemma sigmoid_pos (d : ℝ) : 0 < sigmoid Real.exp d := by
  unfold sigmoid
  positivity

/-- The logistic sigmoid of a real is below one. -/
lemma sigmoid_lt_one (d : ℝ) : sigmoid Real.exp d < 1 := by
  unfold sigmoid
  rw [div_lt_one (by positivity)]
  linarith [Real.exp_pos (-d)]

/-- Each pairwise per-example loss term is at least minus the stability
constant. -/
lemma bpr_term_lb (d : ℝ) :
    -(1 / 10 ^ 9 : ℝ) ≤ -(Real.log (sigmoid Real.exp d + 1 / 10 ^ 9)) := by
  have h1 : Real.log (sigmoid Real.exp d + 1 / 10 ^ 9)
      ≤ Real.log (1 + 1 / 10 ^ 9) :=
    Real.log_le_log (add_pos (sigmoid_pos d) (by norm_num))
      (add_le_add_right (sigmoid_lt_one d).le _)
  have h2 : Real.log (1 + 1 / 10 ^ 9) ≤ 1 / 10 ^ 9 := by
    have h3 := Real.log_le_sub_one_of_pos
      (show (0 : ℝ) < 1 + 1 / 10 ^ 9 by norm_num)
    linarith
  linarith

/-- A constant lower bound on every element bounds the sum from below by
the constant times the length. -/
lemma const_mul_length_le_sum {c : ℝ} :
    ∀ (l : List ℝ), (∀ x ∈ l, c ≤ x) → c * l.length ≤ l.sum := by
  intro l
  induction l with
  | nil => simp
  | cons x xs ih =>
    intro h
    have hx := h x (List.mem_cons_self x xs)
    have hxs := ih (fun y hy => h y (List.mem_cons_of_mem x hy))
    simp only [List.sum_cons, List.length_cons]
    push_cast
    nlinarith

/-- The mean of a list of reals all bounded below by a nonpositive constant
is bounded below by that constant. -/
lemma le_mean_of_forall_le {c : ℝ} (hc : c ≤ 0) (l : List ℝ)
    (h : ∀ x ∈ l, c ≤ x) : c ≤ mean l := by
  unfold mean
  rcases Nat.eq_zero_or_pos l.length with h0 | hpos
  · rw [h0]
    simpa using hc
  · rw [le_div_iff (by positivity)]
    exact const_mul_length_le_sum l h

/-- The mean of a list of nonnegative reals is nonnegative. -/
lemma mean_nonneg (l : List ℝ) (h : ∀ x ∈ l, 0 ≤ x) : 0 ≤ mean l :=
  div_nonneg (List.sum_nonneg h) (Nat.cast_nonneg _)

/-- Each in-batch softmax per-row loss term (log-sum-exp of the row minus a
row entry) is nonnegative. -/
lemma softmax_row_term_nonneg (row : List ℝ) (i : ℕ) (hi : i < row.length) :
    0 ≤ Real.log ((row.map Real.exp).sum) - row.getD i 0 := by
  rw [List.getD_eq_getElem row 0 hi, sub_nonneg]
  have hmem : Real.exp row[i] ∈ row.map Real.exp :=
    List.mem_map.mpr ⟨row[i], List.getElem_mem hi, rfl⟩
  have hle : Real.exp row[i] ≤ (row.map Real.exp).sum :=
    List.single_le_sum
      (fun x hx => by
        rcases List.mem_map.mp hx with ⟨y, _, rfl⟩
        exact (Real.exp_pos y).le) _ hmem
  have hpos : 0 < (row.map Real.exp).sum :=
    lt_of_lt_of_le (Real.exp_pos _) hle
  exact (Real.le_log_iff_exp_le hpos).mpr hle

/-- C9 counterexample: with real exp and log, the pairwise loss of
trainStepInBatch is strictly negative on the concrete batch with user
embeddings [[21], [-21]], item embeddings [[1], [0]] and pairs
(0,0), (1,1): both score differences equal 21, the sigmoid saturates toward
1, and adding the 1e-9 constant pushes the argument of the logarithm above
1, so the claimed non-negativity fails. -/
theorem bprLoss_negative_example :
    trainStepInBatch Real.exp Real.log [[(21 : ℝ)], [-21]] [[(1 : ℝ)], [0]]
      [0, 1] [0, 1] true < 0 := by
  have hexp21 : (10 : ℝ) ^ 9 < Real.exp 21 := by
    have he1 : (2.7 : ℝ) < Real.exp 1 :=
      lt_trans (by norm_num) Real.exp_one_gt_d9
    have hpow : ((2.7 : ℝ)) ^ (21 : ℕ) < Real.exp 1 ^ (21 : ℕ) :=
      pow_lt_pow_left₀ he1 (by norm_num) (by norm_num)
    have h21 : Real.exp 21 = Real.exp 1 ^ (21 : ℕ) := by
      rw [← Real.exp_nat_mul]
      norm_num
    have hnum : (10 : ℝ) ^ 9 < (2.7 : ℝ) ^ (21 : ℕ) := by norm_num
    rw [h21]
    linarith
  have hy : Real.exp (-21) < 1 / 10 ^ 9 := by
    rw [Real.exp_neg, one_div]
    exact inv_lt_inv_of_lt (by positivity) hexp21
  have h0 : (0 : ℝ) < Real.exp (-21) := Real.exp_pos _
  have hx : (1 : ℝ) < sigmoid Real.exp 21 + 1 / 10 ^ 9 := by
    unfold sigmoid
    have key : (1 : ℝ) - 1 / 10 ^ 9 < 1 / (1 + Real.exp (-(21 : ℝ))) := by
      rw [lt_div_iff (by positivity)]
      nlinarith
    linarith
  have ht : -(Real.log (sigmoid Real.exp 21 + 1 / 10 ^ 9)) < 0 :=
    neg_neg_of_pos (Real.log_pos hx)
  have hval : trainStepInBatch Real.exp Real.log [[(21 : ℝ)], [-21]]
      [[(1 : ℝ)], [0]] [0, 1] [0, 1] true
      = -(Real.log (sigmoid Real.exp 21 + 1 / 10 ^ 9)) := by
    simp [trainStepInBatch, bprLoss, gather, dot, mean, List.range_succ]
  rw [hval]
  exact ht

/-- C9 (amended): with real exp and log, both loss modes produce a
well-defined real scalar; the in-batch softmax loss is nonnegative, and the
pairwise loss is bounded below by minus the stability constant 1e-9 (it can
be slightly negative when the sigmoid saturates toward 1, so exact
non-negativity holds only for the softmax mode). -/
theorem lossModes_lower_bounds (userEmbed itemEmbed : List (List ℝ))
    (uIdxArr posIdxArr : List ℕ) (hB : 2 ≤ uIdxArr.length)
    (hlen : posIdxArr.length = uIdxArr.length) :
    0 ≤ trainStepInBatch Real.exp Real.log userEmbed itemEmbed uIdxArr
        posIdxArr false
    ∧ -(1 / 10 ^ 9 : ℝ)
        ≤ trainStepInBatch Real.exp Real.log userEmbed itemEmbed uIdxArr
            posIdxArr true := by
  constructor
  · have hrw : trainStepInBatch Real.exp Real.log userEmbed itemEmbed uIdxArr
        posIdxArr false
        = inBatchSoftmaxLoss Real.exp Real.log (gather userEmbed uIdxArr)
            (gather itemEmbed posIdxArr) := rfl
    rw [hrw]
    unfold inBatchSoftmaxLoss
    dsimp only
    apply mean_nonneg
    intro x hx
    rcases List.mem_map.mp hx with ⟨i, hirange, rfl⟩
    have hi : i < uIdxArr.length := by
      have := List.mem_range.mp hirange
      simpa [gather] using this
    have hrow : (((gather userEmbed uIdxArr).map
        (fun u => (gather itemEmbed posIdxArr).map (fun p => dot u p))).getD
          i []).length = posIdxArr.length := by
      rw [List.getD_eq_getElem _ _ (by simpa [gather] using hi)]
      simp [gather]
    apply softmax_row_term_nonneg
    rw [hrow, hlen]
    exact hi
  · have hrw : trainStepInBatch Real.exp Real.log userEmbed itemEmbed uIdxArr
        posIdxArr true
        = bprLoss Real.exp Real.log (1 / 10 ^ 9) (gather userEmbed uIdxArr)
            (gather itemEmbed posIdxArr)
            (gather itemEmbed ((List.range uIdxArr.length).map
              (fun i => posIdxArr.getD ((i + 1) % uIdxArr.length) 0))) := rfl
    rw [hrw]
    unfold bprLoss
    dsimp only
    apply le_mean_of_forall_le (by norm_num)
    intro x hx
    rcases List.mem_map.mp hx with ⟨d, _, rfl⟩
    exact bpr_term_lb d

/-- C9 witness: the amended loss-bound theorem applied to a concrete batch
of two pairs. -/
theorem lossModes_lower_bounds_witness :
    0 ≤ trainStepInBatch Real.exp Real.log [[(1 : ℝ)], [0]] [[(1 : ℝ)], [0]]
        [0, 1] [0, 1] false
    ∧ -(1 / 10 ^ 9 : ℝ)
        ≤ trainStepInBatch Real.exp Real.log [[(1 : ℝ)], [0]]
            [[(1 : ℝ)], [0]] [0, 1] [0, 1] true :=
  lossModes_lower_bounds [[1], [0]] [[1], [0]] [0, 1] [0, 1] (by decide) rfl

/-! ### C7: deep scoring path composition -/

/-- C7: in the source, DeepRecModel.trainStep computes the MLP output but
never feeds it into the loss: the training-step loss is identical for any
two MLP functions (first conjunct), so the claimed residual composition
(MLP output added to the dot-product score before the loss) does not happen
during training.  At serving time, scoreAllItems does add the MLP scalar
output to the dot-product score of every item (second conjunct). -/
theorem deepTrainStep_ignores_mlp :
    (∀ (kexp klog : ℝ → ℝ) (userEmbed itemEmbed : List (List ℝ))
        (mlp mlp2 : List ℝ → ℝ) (genreFor userFeatFor : ℕ → List ℝ)
        (uIdxArr posIdxArr : List ℕ) (useBPR : Bool),
        deepTrainStep kexp klog userEmbed itemEmbed mlp genreFor userFeatFor
            uIdxArr posIdxArr useBPR
          = deepTrainStep kexp klog userEmbed itemEmbed mlp2 genreFor
              userFeatFor uIdxArr posIdxArr useBPR)
    ∧ (∀ (userEmb : List ℝ) (itemEmbed : List (List ℝ)) (numItems : ℕ)
        (mlp : List ℝ → ℝ) (featFor : ℕ → List ℝ) (i : ℕ), i < numItems →
        (deepScoreAllItems userEmb itemEmbed numItems true mlp
            featFor).getD i 0
          = dot userEmb (itemEmbed.getD i [])
            + mlp (userEmb ++ itemEmbed.getD i [] ++ featFor i)) := by
  constructor
  · intro kexp klog userEmbed itemEmbed mlp mlp2 genreFor userFeatFor uIdxArr
      posIdxArr useBPR
    rfl
  · intro userEmb itemEmbed numItems mlp featFor i hi
    have hrw : deepScoreAllItems userEmb itemEmbed numItems true mlp featFor
        = (List.range numItems).map
            (fun j => ((List.range numItems).map
                (fun j2 => dot userEmb (itemEmbed.getD j2 []))).getD j 0
              + mlp (userEmb ++ itemEmbed.getD j [] ++ featFor j)) := rfl
    rw [hrw]
    rw [List.getD_eq_getElem _ _ (by simpa using hi)]
    simp only [List.getElem_map, List.getElem_range]
    rw [List.getD_eq_getElem _ _ (by simpa using hi)]
    simp only [List.getElem_map, List.getElem_range]

/-- C7 witness: the theorem applied to a concrete one-pair batch (the
training loss is unchanged when the MLP output jumps from 0 to 1000) and a
concrete one-item catalog (the served score adds the constant-5 MLP
output). -/
theorem deepTrainStep_ignores_mlp_witness :
    deepTrainStep (fun x => x) (fun x => x) [[(1 : ℝ)]] [[(1 : ℝ)]]
        (fun _ => 1000) (fun _ => []) (fun _ => []) [0] [0] true
      = deepTrainStep (fun x => x) (fun x => x) [[(1 : ℝ)]] [[(1 : ℝ)]]
          (fun _ => 0) (fun _ => []) (fun _ => []) [0] [0] true
    ∧ (deepScoreAllItems [(1 : ℝ)] [[(1 : ℝ)]] 1 true (fun _ => 5)
        (fun _ => [])).getD 0 0
      = dot [(1 : ℝ)] ([[(1 : ℝ)]].getD 0 [])
        + (fun _ : List ℝ => (5 : ℝ))
            ([(1 : ℝ)] ++ [[(1 : ℝ)]].getD 0 [] ++ (fun _ : ℕ => ([] : List ℝ)) 0) :=
  ⟨deepTrainStep_ignores_mlp.1 (fun x => x) (fun x => x) [[1]] [[1]]
      (fun _ => 1000) (fun _ => 0) (fun _ => []) (fun _ => []) [0] [0] true,
   deepTrainStep_ignores_mlp.2 [1] [[1]] 1 (fun _ => 5) (fun _ => []) 0
     (by decide)⟩

/-! ### C8: behaviour on non-finite losses -/

/-- C8 counterexample: the training loop has no finiteness check, so it is
false that a non-finite (none) loss stops further batches: with four pairs,
batch size 2 and a step function returning a non-finite loss on the first
batch, the loss history still has two entries. -/
theorem runEpochLosses_not_aborting :
    ¬ (∀ (pairs : List (ℕ × ℕ)) (batchSize : ℕ)
        (stepLoss : List (ℕ × ℕ) → Option ℚ) (i : ℕ),
        i < (eligibleBatches pairs batchSize).length →
        stepLoss ((eligibleBatches pairs batchSize).getD i []) = none →
        (runEpochLosses pairs batchSize stepLoss).length ≤ i + 1) := by
  intro h
  have hc := h [(0, 0), (0, 1), (1, 0), (1, 1)] 2
    (fun b => if b = [(0, 0), (0, 1)] then none else some 1) 0
    (by decide) (by decide)
  revert hc
  decide

/-- C8 (amended): the week4 training loop processes every eligible batch
unconditionally: the recorded loss history always has one entry per
eligible batch, and the j-th entry is the j-th batch's step loss, whatever
value - finite or not - any earlier batch produced; no divergence check or
DivergenceError exists. -/
theorem runEpochLosses_processes_all (pairs : List (ℕ × ℕ)) (batchSize : ℕ)
    (stepLoss : List (ℕ × ℕ) → Option ℚ) :
    (runEpochLosses pairs batchSize stepLoss).length
        = (eligibleBatches pairs batchSize).length
    ∧ ∀ j < (eligibleBatches pairs batchSize).length,
        (runEpochLosses pairs batchSize stepLoss).getD j (some 0)
          = stepLoss ((eligibleBatches pairs batchSize).getD j []) := by
  constructor
  · exact List.length_map _ _
  · intro j hj
    rw [List.getD_eq_getElem _ _ (by simpa [runEpochLosses] using hj),
      List.getD_eq_getElem _ _ hj]
    simp [runEpochLosses]

/-- C8 witness: the amended theorem applied to the concrete run in which
every batch has a non-finite loss: both batches are still processed and
recorded. -/
theorem runEpochLosses_processes_all_witness :
    (runEpochLosses [(0, 0), (0, 1), (1, 0), (1, 1)] 2 (fun _ => none)).length
        = (eligibleBatches [(0, 0), (0, 1), (1, 0), (1, 1)] 2).length
    ∧ (runEpochLosses [(0, 0), (0, 1), (1, 0), (1, 1)] 2
          (fun _ => none)).getD 1 (some 0)
        = (fun _ => (none : Option ℚ))
            ((eligibleBatches [(0, 0), (0, 1), (1, 0), (1, 1)] 2).getD 1 []) :=
  ⟨(runEpochLosses_processes_all [(0, 0), (0, 1), (1, 0), (1, 1)] 2
      (fun _ => none)).1,
   (runEpochLosses_processes_all [(0, 0), (0, 1), (1, 0), (1, 1)] 2
      (fun _ => none)).2 1 (by decide)⟩

end MovieRec
